import Mathlib

/-!
Verification of the esp_bus message-bus core against its specification.

Strings from the C sources are modelled as `List Char` (C strings without
interior NUL bytes), payload buffers as `List Nat` (byte lists), machine
integers as `Nat`/`Int`, and fallible operations return `Option` or an
explicit error code.  Heap allocation and queue/semaphore primitives are
modelled by explicit boolean oracles passed to each operation, so every
control path of the C code is represented.
-/

/-- ESP-IDF error codes used by the bus (`esp_err_t`). -/
inductive EspErr where
  | ok
  | no_mem
  | invalid_arg
  | invalid_state
  | not_found
  | not_supported
  | timeout
  deriving DecidableEq, Repr

/-- Payload bytes (`void* + size_t` buffers). -/
def Bytes := List Nat
deriving DecidableEq, Repr

/-- `ESP_BUS_NAME_MAX` from `esp_bus.h` (default configuration). -/
def ESP_BUS_NAME_MAX : Nat := 16

/-- `ESP_BUS_PATTERN_MAX` from `esp_bus.h` (default configuration). -/
def ESP_BUS_PATTERN_MAX : Nat := 32

/-! ## Pattern matcher (`esp_bus_match_pattern`, src/esp_bus.c lines 24-45) -/

/-- The nonempty suffixes of a list, longest first: exactly the successive
values of the C cursor `t` in the inner `while (*t)` loop. -/
def neSuffixes : List Char → List (List Char)
  | [] => []
  | c :: t => (c :: t) :: neSuffixes t

/-- Shallow embedding of `esp_bus_match_pattern`.  The C function walks
`pattern` and `target` in lockstep; on `'*'` it advances the pattern and,
unless the pattern is exhausted, retries the rest of the pattern against
every nonempty suffix of the remaining target; after the main loop it skips
a trailing run of `'*'` and requires both strings exhausted. -/
def esp_bus_match_pattern (p t : List Char) : Bool :=
  match p, t with
  | [], t => t.isEmpty
  | p, [] => p.all fun c => c == '*'
  | '*' :: ps, c :: ts =>
    if ps.isEmpty then true
    else (neSuffixes (c :: ts)).any fun s => esp_bus_match_pattern ps s
  | pc :: ps, c :: ts => pc == c && esp_bus_match_pattern ps ts
termination_by (p.length, t.length)
decreasing_by
  all_goals simp_wf
  all_goals exact Prod.Lex.left _ _ (by omega)

/-- The glob language described by the spec: `'*'` matches zero or more
arbitrary characters, every other character matches literally, and the
match is anchored at both ends. -/
inductive GlobMatch : List Char → List Char → Prop where
  | nil : GlobMatch [] []
  | lit {c : Char} {p t : List Char} (hc : c ≠ '*') (h : GlobMatch p t) :
      GlobMatch (c :: p) (c :: t)
  | star_skip {p t : List Char} (h : GlobMatch p t) : GlobMatch ('*' :: p) t
  | star_take {c : Char} {p t : List Char} (h : GlobMatch ('*' :: p) t) :
      GlobMatch ('*' :: p) (c :: t)

/-! ## Pattern parser (`esp_bus_parse_pattern`, src/esp_bus.c lines 47-78) -/

/-- Shallow embedding of `esp_bus_parse_pattern`.  The C function looks up
the first `'.'` with `strchr` and, only when there is none, the first
`':'`; the module segment is copied exactly (its length is checked against
`ESP_BUS_NAME_MAX`), the action segment is copied with
`strncpy(..., ESP_BUS_NAME_MAX - 1)` (truncating), and a string with
neither separator becomes a truncated module with empty action and
separator `'\x00'`. -/
def esp_bus_parse_pattern (pattern : List Char) :
    Option (List Char × List Char × Char) :=
  if '.' ∈ pattern then
    let len := pattern.indexOf '.'
    if ESP_BUS_NAME_MAX ≤ len then none
    else some (pattern.take len, (pattern.drop (len + 1)).take (ESP_BUS_NAME_MAX - 1), '.')
  else if ':' ∈ pattern then
    let len := pattern.indexOf ':'
    if ESP_BUS_NAME_MAX ≤ len then none
    else some (pattern.take len, (pattern.drop (len + 1)).take (ESP_BUS_NAME_MAX - 1), ':')
  else
    some (pattern.take (ESP_BUS_NAME_MAX - 1), [], '\x00')

/-! ## Registry data model (`esp_bus_priv.h`) -/

/-- The caller-owned response buffer, its capacity and the `*res_len`
output cell that a request handler may write. -/
structure ResBuf where
  size : Nat
  data : Bytes
  lenOut : Option Nat

/-- A request handler (`esp_bus_req_fn`): receives the action name, the
request bytes and the response buffer state, returns an `esp_err_t` and
the updated response buffer state.  The `ctx` pointer of the C signature
is captured in the closure. -/
def ReqHandler := List Char → Bytes → ResBuf → EspErr × ResBuf

/-- `module_node_t`: registry entry for one module.  The schema tables are
irrelevant to the claims and omitted; `ctx` is an opaque pointer value. -/
structure ModuleNode where
  name : List Char
  on_req : Option ReqHandler
  on_evt : Option Nat
  ctx : Nat

/-- `sub_node_t`: a subscription (handler pointer kept opaque). -/
structure SubNode where
  id : Nat
  pattern : List Char
  handler : Nat
  ctx : Nat
  deriving DecidableEq, Repr

/-- `route_node_t`: an event-to-request route; `transform` is the optional
transform callback, `req_data` the owned static payload copy. -/
structure RouteNode where
  evt_pattern : List Char
  req_pattern : List Char
  req_data : Option Bytes
  req_len : Nat
  transform : Option (List Char → Bytes → Option (List Char × Bytes))
  ctx : Nat

/-- `svc_node_t`: a timer entry; `rep` is the C field `repeat`, `fn` and
`ctx` are kept as opaque values (callback invocations are recorded by id). -/
structure SvcNode where
  id : Nat
  fn : Nat
  ctx : Nat
  interval_ms : Nat
  next_run_us : Int
  rep : Bool
  deriving DecidableEq, Repr

/-- `esp_bus_state_t`: the global bus state relevant to the claims (queue,
mutex and task handle live outside the shallow embedding; queue sends are
modelled by enqueue oracles). -/
structure BusState where
  initialized : Bool
  strict : Bool
  modules : List ModuleNode
  subs : List SubNode
  routes : List RouteNode
  services : List SvcNode

/-- `esp_bus_find_module`: linear scan comparing full names with `strcmp`. -/
def esp_bus_find_module (st : BusState) (name : List Char) : Option ModuleNode :=
  st.modules.find? fun node => node.name == name

/-! ## Request processing (`esp_bus_process_request`, src/esp_bus_msg.c 16-43) -/

/-- Result of `esp_bus_process_request`: the returned `esp_err_t`, the
response buffer state after the call, and the list of error codes passed
to `esp_bus_report_error` (which logs and invokes the error callback). -/
structure ReqResult where
  err : EspErr
  res : ResBuf
  reported : List EspErr

/-- Shallow embedding of `esp_bus_process_request`: parse the pattern
(requiring the `'.'` separator), look up the module, and dispatch to its
request handler; unknown modules are dropped silently unless strict mode
is set. -/
def esp_bus_process_request (st : BusState) (pattern : List Char) (req : Bytes)
    (res : ResBuf) : ReqResult :=
  match esp_bus_parse_pattern pattern with
  | none => ⟨.invalid_arg, res, [.invalid_arg]⟩
  | some (module_name, action, sep) =>
    if sep ≠ '.' then ⟨.invalid_arg, res, [.invalid_arg]⟩
    else
      match esp_bus_find_module st module_name with
      | none =>
        if st.strict then ⟨.not_found, res, [.not_found]⟩ else ⟨.ok, res, []⟩
      | some m =>
        match m.on_req with
        | none => ⟨.not_supported, res, [.not_supported]⟩
        | some h =>
          let hr := h action req res
          ⟨hr.1, hr.2, []⟩

/-! ## Module registration (`esp_bus_reg`, src/esp_bus.c lines 267-298) -/

/-- Shallow embedding of `esp_bus_reg`.  `allocOk` is the outcome of the
`calloc` for the new registry node.  The stored name is truncated by
`strncpy(node->name, module->name, ESP_BUS_NAME_MAX - 1)`. -/
def esp_bus_reg (st : BusState) (allocOk : Bool) (m : ModuleNode) : EspErr × BusState :=
  if ¬st.initialized then (.invalid_arg, st)
  else if (esp_bus_find_module st m.name).isSome then (.invalid_state, st)
  else if ¬allocOk then (.no_mem, st)
  else (.ok, { st with
    modules := { m with name := m.name.take (ESP_BUS_NAME_MAX - 1) } :: st.modules })

/-! ## Routing (`esp_bus_on` / `esp_bus_off`, src/esp_bus_msg.c 209-278) -/

/-- Shallow embedding of `esp_bus_on` (static route registration).
`nodeAllocOk` is the `calloc` outcome for the route node, `payloadAllocOk`
the `malloc` outcome for the copied request payload.  Note the C code
inserts the node and returns `ESP_OK` even when the payload `malloc`
fails — the copy is only performed `if (node->req_data)`. -/
def esp_bus_on (st : BusState) (nodeAllocOk payloadAllocOk : Bool)
    (evt_pattern req_pattern : List Char) (req_data : Option Bytes) :
    EspErr × BusState :=
  if ¬st.initialized then (.invalid_arg, st)
  else if ¬nodeAllocOk then (.no_mem, st)
  else
    let base : RouteNode :=
      { evt_pattern := evt_pattern.take (ESP_BUS_PATTERN_MAX - 1)
        req_pattern := req_pattern.take (ESP_BUS_PATTERN_MAX - 1)
        req_data := none
        req_len := 0
        transform := none
        ctx := 0 }
    let node :=
      match req_data with
      | some d =>
        if 0 < d.length then
          if payloadAllocOk then { base with req_data := some d, req_len := d.length }
          else base
        else base
      | none => base
    (.ok, { st with routes := node :: st.routes })

/-- Shallow embedding of `esp_bus_off`: removes every route whose
`evt_pattern` equals the argument and, when a request-pattern filter is
given, whose `req_pattern` equals it too.  The third component is the
list of removed nodes (whose owned payloads the C code frees). -/
def esp_bus_off (st : BusState) (evt_pattern : List Char)
    (req_pattern : Option (List Char)) : EspErr × BusState × List RouteNode :=
  if ¬st.initialized then (.invalid_arg, st, [])
  else
    let remove : RouteNode → Bool := fun r =>
      decide (r.evt_pattern = evt_pattern) &&
        (req_pattern.isNone || decide (req_pattern = some r.req_pattern))
    (.ok, { st with routes := st.routes.filter fun r => !remove r },
      st.routes.filter remove)

/-! ## Message layer (`esp_bus_req` / `esp_bus_emit` / `process_message`) -/

/-- `msg_type_t`. -/
inductive MsgType where
  | req
  | evt
  | trigger
  deriving DecidableEq, Repr

/-- `message_t`: the queued envelope.  `data` is the owned payload copy
(`NULL` ↔ `none`), `hasResult`/`hasDone` model the `result` pointer and
the `done` semaphore handle, `res` the caller response buffer fields. -/
structure Message where
  type : MsgType
  pattern : List Char
  data : Option Bytes
  hasResult : Bool
  hasDone : Bool
  res : ResBuf

/-- The C condition `req && req_len > 0` deciding whether a payload copy
is allocated. -/
def msg_has_payload : Option Bytes → Bool
  | some d => decide (0 < d.length)
  | none => false

/-- Caller-visible outcome of one `esp_bus_req` call (non-worker path):
the returned error, the envelope enqueued (if any), whether the caller
blocked on the handoff semaphore, and the allocation bookkeeping. -/
structure ReqOutcome where
  ret : EspErr
  resAfter : ResBuf
  enqueuedMsg : Option Message
  blocked : Bool
  payloadAllocated : Bool
  payloadFreedByCaller : Bool
  semCreated : Bool
  semDeleted : Bool

/-- Shallow embedding of `esp_bus_req` (src/esp_bus_msg.c lines 88-138).
`isWorker` models `xTaskGetCurrentTaskHandle() == g_bus.task`; `allocOk`
the payload `malloc`; `enqueueOk` the `xQueueSend` outcome within the
timeout; `waitOk` the `xSemaphoreTake` outcome; `workerResult` the error
the worker stored through `msg->result` before giving the semaphore. -/
def esp_bus_req (st : BusState) (isWorker : Bool) (allocOk enqueueOk waitOk : Bool)
    (workerResult : EspErr) (pattern : List Char) (req : Option Bytes)
    (res : ResBuf) (timeout_ms : Nat) : ReqOutcome :=
  if ¬st.initialized then
    ⟨.invalid_arg, res, none, false, false, false, false, false⟩
  else if isWorker then
    let r := esp_bus_process_request st pattern (req.getD []) res
    ⟨r.err, r.res, none, false, false, false, false, false⟩
  else
    let hasPayload := msg_has_payload req
    if hasPayload ∧ ¬allocOk then
      ⟨.no_mem, res, none, false, false, false, false, false⟩
    else
      let msg : Message :=
        { type := .req
          pattern := pattern.take (ESP_BUS_PATTERN_MAX - 1)
          data := if hasPayload then req else none
          hasResult := decide (0 < timeout_ms)
          hasDone := decide (0 < timeout_ms)
          res := res }
      let semCreated := decide (0 < timeout_ms)
      if ¬enqueueOk then
        ⟨.timeout, res, none, false, hasPayload, hasPayload, semCreated, semCreated⟩
      else if 0 < timeout_ms then
        ⟨if waitOk then workerResult else .timeout, res, some msg, true,
          hasPayload, false, true, true⟩
      else
        ⟨.ok, res, some msg, false, hasPayload, false, false, false⟩

/-- Worker-side outcome of `process_message` (src/esp_bus.c lines 103-125):
whether a result was stored and the semaphore given, whether the owned
payload was freed, which `esp_bus_dispatch_event` call was made (if any),
the response buffer state, and the errors reported. -/
structure ProcOutcome where
  resultWritten : Option EspErr
  doneGiven : Bool
  dataFreed : Bool
  dispatchCall : Option (List Char × List Char)
  resAfter : ResBuf
  reported : List EspErr

/-- Shallow embedding of `process_message`: requests run
`esp_bus_process_request` and release the payload; events re-parse the
stored pattern and dispatch only when the separator is `':'`, always
releasing the payload; wake triggers do nothing. -/
def process_message (st : BusState) (msg : Message) : ProcOutcome :=
  match msg.type with
  | .req =>
    let r := esp_bus_process_request st msg.pattern (msg.data.getD []) msg.res
    ⟨if msg.hasResult then some r.err else none, msg.hasDone, msg.data.isSome,
      none, r.res, r.reported⟩
  | .evt =>
    match esp_bus_parse_pattern msg.pattern with
    | some (module, event, sep) =>
      if sep = ':' then
        ⟨none, false, msg.data.isSome, some (module, event), msg.res, []⟩
      else
        ⟨none, false, msg.data.isSome, none, msg.res, []⟩
    | none => ⟨none, false, msg.data.isSome, none, msg.res, []⟩
  | .trigger => ⟨none, false, msg.data.isSome, none, msg.res, []⟩

/-- Caller-visible outcome of one `esp_bus_emit` call. -/
structure EmitOutcome where
  ret : EspErr
  enqueuedMsg : Option Message
  payloadAllocated : Bool
  payloadFreedByCaller : Bool

/-- Shallow embedding of `esp_bus_emit` (src/esp_bus_msg.c lines 144-163):
builds the `"src:evt"` pattern with `snprintf` (truncated to
`ESP_BUS_PATTERN_MAX - 1` characters), copies the payload, and enqueues
without blocking; a full queue frees the copy and returns timeout. -/
def esp_bus_emit (st : BusState) (allocOk enqueueOk : Bool)
    (src evt : List Char) (data : Option Bytes) : EmitOutcome :=
  if ¬st.initialized then ⟨.invalid_arg, none, false, false⟩
  else
    let pattern := (src ++ ':' :: evt).take (ESP_BUS_PATTERN_MAX - 1)
    let hasPayload := msg_has_payload data
    if hasPayload ∧ ¬allocOk then ⟨.no_mem, none, false, false⟩
    else
      let msg : Message :=
        { type := .evt
          pattern := pattern
          data := if hasPayload then data else none
          hasResult := false
          hasDone := false
          res := ⟨0, [], none⟩ }
      if ¬enqueueOk then ⟨.timeout, none, hasPayload, hasPayload⟩
      else ⟨.ok, some msg, hasPayload, false⟩

/-! ## Timer scheduler (`esp_bus_svc.c`) -/

/-- Loop body of `esp_bus_calc_next_wait`: for an armed timer
(`next_run_us > 0`) the candidate is `next_run_us - now` floored to
1000 µs, and the accumulator keeps the smaller of the two. -/
def next_wait_step (now mw : Int) (s : SvcNode) : Int :=
  if 0 < s.next_run_us then
    if (if s.next_run_us - now < 1000 then 1000 else s.next_run_us - now) < mw
    then (if s.next_run_us - now < 1000 then 1000 else s.next_run_us - now)
    else mw
  else mw

/-- Shallow embedding of `esp_bus_calc_next_wait` (src/esp_bus_svc.c
13-28): fold the floored candidates starting from the 100000 µs cap,
convert to milliseconds, and return at least 1 ms. -/
def esp_bus_calc_next_wait (st : BusState) (now : Int) : Nat :=
  if 0 < (st.services.foldl (next_wait_step now) 100000).toNat / 1000
  then (st.services.foldl (next_wait_step now) 100000).toNat / 1000
  else 1

/-- First pass of `esp_bus_run_services` (src/esp_bus_svc.c 33-46): fire
every armed timer whose due time has passed (recording its id), rearming
repeating timers to `now + interval_ms * 1000` and zeroing one-shot
timers. -/
def run_services_pass1 (now : Int) : List SvcNode → List SvcNode × List Nat
  | [] => ([], [])
  | s :: rest =>
    let r := run_services_pass1 now rest
    if 0 < s.next_run_us ∧ s.next_run_us ≤ now then
      ({ s with next_run_us :=
          if s.rep then now + (s.interval_ms : Int) * 1000 else 0 } :: r.1,
        s.id :: r.2)
    else (s :: r.1, r.2)

/-- Second pass of `esp_bus_run_services` (src/esp_bus_svc.c 49-54):
remove retired one-shot entries (`!repeat && next_run_us == 0`). -/
def run_services_pass2 (l : List SvcNode) : List SvcNode :=
  l.filter fun s => !(!s.rep && decide (s.next_run_us = 0))

/-- Shallow embedding of `esp_bus_run_services`: the resulting service
registry and the ids of the timers fired, in registry order. -/
def esp_bus_run_services (st : BusState) (now : Int) : List SvcNode × List Nat :=
  (run_services_pass2 (run_services_pass1 now st.services).1,
    (run_services_pass1 now st.services).2)

/-! ## Theorems -/

example : esp_bus_match_pattern "a*c".toList "abc".toList = true := by
  simp [esp_bus_match_pattern, neSuffixes]

example : esp_bus_match_pattern "a*c".toList "ac".toList = true := by
  simp [esp_bus_match_pattern, neSuffixes]

example : esp_bus_match_pattern "a*c".toList "ab".toList = false := by
  simp [esp_bus_match_pattern, neSuffixes]

example : esp_bus_match_pattern "*".toList "".toList = true := by
  simp [esp_bus_match_pattern, neSuffixes]

example : esp_bus_match_pattern "*".toList "x:y".toList = true := by
  simp [esp_bus_match_pattern, neSuffixes]

example : esp_bus_match_pattern "x*:e".toList "x1:e".toList = true := by
  simp [esp_bus_match_pattern, neSuffixes]

theorem globMatch_nil_left {t : List Char} : GlobMatch [] t ↔ t = [] := by
  constructor
  · intro h; cases h; rfl
  · rintro rfl; exact GlobMatch.nil

theorem globMatch_all_star_of_nil {p t : List Char} (h : GlobMatch p t) (ht : t = []) :
    ∀ c ∈ p, c = '*' := by
  induction h with
  | nil => simp
  | lit hc h ih => simp at ht
  | star_skip h ih =>
    intro c hc
    rcases List.mem_cons.mp hc with rfl | hm
    · rfl
    · exact ih ht c hm
  | star_take h ih => simp at ht

theorem globMatch_of_all_star_nil : ∀ p : List Char, (∀ c ∈ p, c = '*') → GlobMatch p []
  | [], _ => GlobMatch.nil
  | c :: p, h => by
    have hc : c = '*' := h c (List.mem_cons_self c p)
    subst hc
    exact GlobMatch.star_skip
      (globMatch_of_all_star_nil p fun d hd => h d (List.mem_cons_of_mem _ hd))

theorem globMatch_nil_right {p : List Char} : GlobMatch p [] ↔ ∀ c ∈ p, c = '*' :=
  ⟨fun h => globMatch_all_star_of_nil h rfl, globMatch_of_all_star_nil p⟩

theorem globMatch_star_iff {p t : List Char} :
    GlobMatch ('*' :: p) t ↔ ∃ s, s <:+ t ∧ GlobMatch p s := by
  constructor
  · intro h
    induction t with
    | nil =>
      cases h with
      | star_skip h => exact ⟨[], List.suffix_refl [], h⟩
    | cons c ts ih =>
      cases h with
      | lit hc h => exact absurd rfl hc
      | star_skip h => exact ⟨c :: ts, List.suffix_refl _, h⟩
      | star_take h =>
        obtain ⟨s, hs, hg⟩ := ih h
        exact ⟨s, hs.trans (List.suffix_cons c ts), hg⟩
  · rintro ⟨s, ⟨pre, rfl⟩, hg⟩
    induction pre with
    | nil => exact GlobMatch.star_skip hg
    | cons c pre ih => exact GlobMatch.star_take ih

theorem globMatch_all_star :
    ∀ p : List Char, (∀ c ∈ p, c = '*') → p ≠ [] → ∀ t, GlobMatch p t
  | [], _, hne, _ => absurd rfl hne
  | c :: ps, hp, _, t => by
    have hc : c = '*' := hp c (List.mem_cons_self c ps)
    subst hc
    match ps, hp with
    | [], _ => exact globMatch_star_iff.mpr ⟨[], List.nil_suffix, GlobMatch.nil⟩
    | d :: qs, hp =>
      exact GlobMatch.star_skip
        (globMatch_all_star (d :: qs) (fun e he => hp e (List.mem_cons_of_mem _ he))
          (by simp) t)

theorem globMatch_lit_inv {c : Char} {p t : List Char} (hc : c ≠ '*')
    (h : GlobMatch (c :: p) t) : ∃ ts, t = c :: ts ∧ GlobMatch p ts := by
  cases h with
  | lit _ h => exact ⟨_, rfl, h⟩
  | star_skip h => exact absurd rfl hc
  | star_take h => exact absurd rfl hc

theorem mem_neSuffixes {s l : List Char} : s ∈ neSuffixes l ↔ s ≠ [] ∧ s <:+ l := by
  induction l with
  | nil => simp [neSuffixes, List.suffix_nil]
  | cons c t ih =>
    simp only [neSuffixes, List.mem_cons, ih, List.suffix_cons_iff]
    constructor
    · rintro (rfl | ⟨hne, hs⟩)
      · exact ⟨by simp, Or.inl rfl⟩
      · exact ⟨hne, Or.inr hs⟩
    · rintro ⟨hne, rfl | hs⟩
      · exact Or.inl rfl
      · exact Or.inr ⟨hne, hs⟩

theorem match_iff_glob : ∀ p t, esp_bus_match_pattern p t = true ↔ GlobMatch p t := by
  have H : ∀ n p t, p.length + t.length = n →
      (esp_bus_match_pattern p t = true ↔ GlobMatch p t) := by
    intro n
    induction n using Nat.strong_induction_on with
    | _ n ih =>
      intro p t hn
      rcases p with _ | ⟨pc, ps⟩
      · rw [esp_bus_match_pattern]
        simp [List.isEmpty_iff, globMatch_nil_left]
      rcases t with _ | ⟨c, ts⟩
      · rw [esp_bus_match_pattern.eq_def]
        simp [List.all_eq_true, globMatch_nil_right]
      by_cases hpc : pc = '*'
      · subst hpc
        rw [esp_bus_match_pattern]
        by_cases hps : ps = []
        · subst hps
          simp only [List.isEmpty_nil, if_true, true_iff]
          exact globMatch_all_star ['*'] (by simp) (by simp) (c :: ts)
        · rw [if_neg (by simpa [List.isEmpty_iff] using hps)]
          rw [List.any_eq_true]
          constructor
          · rintro ⟨s, hmem, hmatch⟩
            obtain ⟨hne, hsuf⟩ := mem_neSuffixes.mp hmem
            have hlen : ps.length + s.length < n := by
              have hs := hsuf.length_le
              simp only [List.length_cons] at hs hn ⊢
              omega
            exact globMatch_star_iff.mpr ⟨s, hsuf, (ih _ hlen ps s rfl).mp hmatch⟩
          · intro hg
            obtain ⟨s, hsuf, hgs⟩ := globMatch_star_iff.mp hg
            cases s with
            | nil =>
              have hall := globMatch_nil_right.mp hgs
              refine ⟨c :: ts, mem_neSuffixes.mpr ⟨by simp, List.suffix_refl _⟩, ?_⟩
              have hg2 : GlobMatch ps (c :: ts) := globMatch_all_star ps hall hps (c :: ts)
              have hlen : ps.length + (c :: ts).length < n := by
                simp only [List.length_cons] at hn ⊢
                omega
              exact (ih _ hlen ps (c :: ts) rfl).mpr hg2
            | cons d ds =>
              have hlen : ps.length + (d :: ds).length < n := by
                have hs := hsuf.length_le
                simp only [List.length_cons] at hs hn ⊢
                omega
              exact ⟨d :: ds, mem_neSuffixes.mpr ⟨by simp, hsuf⟩,
                (ih _ hlen ps (d :: ds) rfl).mpr hgs⟩
      · have hlen : ps.length + ts.length < n := by
          simp only [List.length_cons] at hn
          omega
        have hstep : esp_bus_match_pattern (pc :: ps) (c :: ts) =
            (pc == c && esp_bus_match_pattern ps ts) := by
          rw [esp_bus_match_pattern.eq_def]
          simp [hpc]
        rw [hstep, Bool.and_eq_true, beq_iff_eq]
        constructor
        · rintro ⟨rfl, hm⟩
          exact GlobMatch.lit hpc ((ih _ hlen ps ts rfl).mp hm)
        · intro hg
          obtain ⟨ts', hts, hgs⟩ := globMatch_lit_inv hpc hg
          injection hts with h1 h2
          cases h2
          exact ⟨h1.symm, (ih _ hlen ps ts rfl).mpr hgs⟩
  exact fun p t => H _ p t rfl

theorem globMatch_no_star {p : List Char} (hp : '*' ∉ p) :
    ∀ t, GlobMatch p t ↔ p = t := by
  induction p with
  | nil =>
    intro t
    rw [globMatch_nil_left]
    exact ⟨fun h => h ▸ rfl, fun h => h.symm⟩
  | cons c ps ih =>
    intro t
    have hc : c ≠ '*' := fun h => hp (h ▸ List.mem_cons_self c ps)
    have hp' : '*' ∉ ps := fun hm => hp (List.mem_cons_of_mem _ hm)
    constructor
    · intro h
      obtain ⟨ts, rfl, hts⟩ := globMatch_lit_inv hc h
      rw [(ih hp' ts).mp hts]
    · rintro rfl
      exact GlobMatch.lit hc ((ih hp' ps).mpr rfl)

/-- C1: `esp_bus_match_pattern p t` is true iff `t` is in the glob language
of `p` (`'*'` matches zero or more arbitrary characters, every other
character matches literally, anchored at both ends, case-sensitive); in
particular a pattern without `'*'` matches exactly itself, and the pattern
`"*"` matches every target including the empty string. -/
theorem esp_bus_match_pattern_glob :
    (∀ p t, esp_bus_match_pattern p t = true ↔ GlobMatch p t) ∧
    (∀ p t, '*' ∉ p → (esp_bus_match_pattern p t = true ↔ p = t)) ∧
    (∀ t, esp_bus_match_pattern ['*'] t = true) := by
  refine ⟨match_iff_glob, ?_, ?_⟩
  · intro p t hp
    rw [match_iff_glob]
    exact globMatch_no_star hp t
  · intro t
    rw [match_iff_glob]
    exact globMatch_all_star ['*'] (by simp) (by simp) t

theorem esp_bus_match_pattern_glob_witness :
    ('*' ∉ "ab".toList) ∧
      (esp_bus_match_pattern "ab".toList "ab".toList = true ↔ "ab".toList = "ab".toList) :=
  ⟨by decide, esp_bus_match_pattern_glob.2.1 "ab".toList "ab".toList (by decide)⟩

example : esp_bus_parse_pattern "led1.toggle".toList =
    some ("led1".toList, "toggle".toList, '.') := by decide

example : esp_bus_parse_pattern "btn1:short".toList =
    some ("btn1".toList, "short".toList, ':') := by decide

example : esp_bus_parse_pattern "bare".toList =
    some ("bare".toList, [], '\x00') := by decide

theorem indexOf_append_cons {c : Char} {m a : List Char} (h : c ∉ m) :
    (m ++ c :: a).indexOf c = m.length := by
  induction m with
  | nil => simp [List.indexOf_cons_self]
  | cons d ds ih =>
    have hd : d ≠ c := fun hh => h (hh ▸ List.mem_cons_self d ds)
    have hds : c ∉ ds := fun hm => h (List.mem_cons_of_mem _ hm)
    simp only [List.cons_append, List.indexOf_cons_ne _ hd, ih hds, List.length_cons]

theorem drop_append_cons {c : Char} (m a : List Char) :
    (m ++ c :: a).drop (m.length + 1) = a := by
  have h1 : m ++ c :: a = (m ++ [c]) ++ a := by simp
  have h2 : m.length + 1 = (m ++ [c]).length := by simp
  rw [h1, h2, List.drop_left]

/-- C5 counterexample: on `"a:b.c"` the first separator character of the
string is the `':'` at index 1, but the code splits at the later `'.'`
because `strchr(pattern, '.')` is consulted first. -/
theorem esp_bus_parse_pattern_first_sep_cex :
    esp_bus_parse_pattern "a:b.c".toList = some ("a:b".toList, "c".toList, '.') ∧
      esp_bus_parse_pattern "a:b.c".toList ≠ some ("a".toList, "b.c".toList, ':') := by
  constructor
  · decide
  · decide

/-- C5 (amended): the parser splits at the first `'.'` when the string
contains one and otherwise at the first `':'`; the module name is the text
before that separator, the action is the text after it truncated to
`ESP_BUS_NAME_MAX - 1` characters; a string with neither separator yields
the token truncated to `ESP_BUS_NAME_MAX - 1` characters as module with an
empty action; parsing fails exactly when the chosen separator is preceded
by at least `ESP_BUS_NAME_MAX` characters. -/
theorem esp_bus_parse_pattern_spec :
    (∀ m a : List Char, '.' ∉ m → m.length < ESP_BUS_NAME_MAX →
      esp_bus_parse_pattern (m ++ '.' :: a) =
        some (m, a.take (ESP_BUS_NAME_MAX - 1), '.')) ∧
    (∀ m a : List Char, '.' ∉ m → ':' ∉ m → '.' ∉ a → m.length < ESP_BUS_NAME_MAX →
      esp_bus_parse_pattern (m ++ ':' :: a) =
        some (m, a.take (ESP_BUS_NAME_MAX - 1), ':')) ∧
    (∀ p : List Char, '.' ∉ p → ':' ∉ p →
      esp_bus_parse_pattern p = some (p.take (ESP_BUS_NAME_MAX - 1), [], '\x00')) ∧
    (∀ m a : List Char, '.' ∉ m → ESP_BUS_NAME_MAX ≤ m.length →
      esp_bus_parse_pattern (m ++ '.' :: a) = none) ∧
    (∀ m a : List Char, '.' ∉ m → ':' ∉ m → '.' ∉ a → ESP_BUS_NAME_MAX ≤ m.length →
      esp_bus_parse_pattern (m ++ ':' :: a) = none) := by
  have hdotmem : ∀ (m a : List Char), '.' ∈ m ++ '.' :: a := by
    intro m a
    simp
  have hnodot : ∀ (m a : List Char), '.' ∉ m → '.' ∉ a → '.' ∉ m ++ ':' :: a := by
    intro m a h1 h2 hmem
    rcases List.mem_append.mp hmem with h | h
    · exact h1 h
    · rcases List.mem_cons.mp h with h | h
      · exact absurd h (by decide)
      · exact h2 h
  have hcolonmem : ∀ (m a : List Char), ':' ∈ m ++ ':' :: a := by
    intro m a
    simp
  refine ⟨?_, ?_, ?_, ?_, ?_⟩
  · intro m a hm hlen
    rw [esp_bus_parse_pattern, if_pos (hdotmem m a)]
    simp only [indexOf_append_cons hm]
    rw [if_neg (by omega), List.take_left, drop_append_cons]
  · intro m a hm hcm ha hlen
    rw [esp_bus_parse_pattern, if_neg (hnodot m a hm ha), if_pos (hcolonmem m a)]
    simp only [indexOf_append_cons hcm]
    rw [if_neg (by omega), List.take_left, drop_append_cons]
  · intro p hd hc
    rw [esp_bus_parse_pattern, if_neg hd, if_neg hc]
  · intro m a hm hlen
    rw [esp_bus_parse_pattern, if_pos (hdotmem m a)]
    simp only [indexOf_append_cons hm]
    rw [if_pos (by omega)]
  · intro m a hm hcm ha hlen
    rw [esp_bus_parse_pattern, if_neg (hnodot m a hm ha), if_pos (hcolonmem m a)]
    simp only [indexOf_append_cons hcm]
    rw [if_pos (by omega)]

theorem esp_bus_parse_pattern_spec_witness :
    ('.' ∉ "led1".toList) ∧
      esp_bus_parse_pattern ("led1".toList ++ '.' :: "toggle".toList) =
        some ("led1".toList, "toggle".toList.take (ESP_BUS_NAME_MAX - 1), '.') :=
  ⟨by decide, esp_bus_parse_pattern_spec.1 "led1".toList "toggle".toList (by decide) (by decide)⟩

/-- C2: request resolution — a pattern that does not parse as
`module '.' action` yields invalid-argument; an unknown module yields
success without strict mode and not-found with it; a module without a
request handler yields not-supported; otherwise the handler is invoked
with the action name, request bytes and caller response buffer, and its
result and response state are propagated verbatim. -/
theorem esp_bus_process_request_resolution :
    (∀ st pattern req res,
      (∀ mn act, esp_bus_parse_pattern pattern ≠ some (mn, act, '.')) →
      esp_bus_process_request st pattern req res = ⟨.invalid_arg, res, [.invalid_arg]⟩) ∧
    (∀ st pattern req res mn act,
      esp_bus_parse_pattern pattern = some (mn, act, '.') →
      (∀ node ∈ st.modules, node.name ≠ mn) →
      esp_bus_process_request st pattern req res =
        ⟨if st.strict then .not_found else .ok, res,
          if st.strict then [.not_found] else []⟩) ∧
    (∀ st pattern req res mn act m,
      esp_bus_parse_pattern pattern = some (mn, act, '.') →
      esp_bus_find_module st mn = some m →
      m.on_req = none →
      esp_bus_process_request st pattern req res = ⟨.not_supported, res, [.not_supported]⟩) ∧
    (∀ st pattern req res mn act m h,
      esp_bus_parse_pattern pattern = some (mn, act, '.') →
      esp_bus_find_module st mn = some m →
      m.on_req = some h →
      esp_bus_process_request st pattern req res =
        ⟨(h act req res).1, (h act req res).2, []⟩) := by
  refine ⟨?_, ?_, ?_, ?_⟩
  · intro st pattern req res hne
    rw [esp_bus_process_request]
    cases hp : esp_bus_parse_pattern pattern with
    | none => rfl
    | some v =>
      obtain ⟨mn, act, sep⟩ := v
      have hsep : sep ≠ '.' := fun h => hne mn act (h ▸ hp)
      simp [hp, hsep]
  · intro st pattern req res mn act hp hnone
    have hfind : esp_bus_find_module st mn = none := by
      rw [esp_bus_find_module, List.find?_eq_none]
      intro node hmem
      simpa using hnone node hmem
    rw [esp_bus_process_request, hp]
    simp only [hfind]
    by_cases hs : st.strict = true
    · simp [hs]
    · simp [hs]
  · intro st pattern req res mn act m hp hfind hreq
    rw [esp_bus_process_request, hp]
    simp [hfind, hreq]
  · intro st pattern req res mn act m h hp hfind hreq
    rw [esp_bus_process_request, hp]
    simp [hfind, hreq]

theorem esp_bus_process_request_resolution_witness :
    (esp_bus_parse_pattern "led1.toggle".toList =
        some ("led1".toList, "toggle".toList, '.')) ∧
      esp_bus_process_request ⟨true, true, [], [], [], []⟩ "led1.toggle".toList []
          ⟨0, [], none⟩ =
        ⟨if true then .not_found else .ok, ⟨0, [], none⟩,
          if true then [.not_found] else []⟩ :=
  ⟨by decide,
    esp_bus_process_request_resolution.2.1 ⟨true, true, [], [], [], []⟩
      "led1.toggle".toList [] ⟨0, [], none⟩ "led1".toList "toggle".toList
      (by decide) (by intro node hmem; simp at hmem)⟩

/-- C4: registering a module whose name is already present in the registry
fails with invalid-state and leaves the whole bus state unchanged, so the
first module stays registered with its original handlers and context. -/
theorem esp_bus_reg_duplicate :
    ∀ st allocOk m node, st.initialized = true → node ∈ st.modules →
      node.name = m.name → esp_bus_reg st allocOk m = (.invalid_state, st) := by
  intro st allocOk m node hinit hmem hname
  have hfind : (esp_bus_find_module st m.name).isSome := by
    rw [esp_bus_find_module, List.find?_isSome]
    exact ⟨node, hmem, by simp [hname]⟩
  rw [esp_bus_reg, if_neg (by simp [hinit]), if_pos hfind]

/-- C9: `esp_bus_off` with no request-pattern filter removes exactly the
routes whose event pattern equals the argument; with a filter it removes
exactly the routes matching both patterns; all other routes and the other
registries are left untouched, and every removed route (with its owned
static payload, which is freed) is returned in the removal list. -/
theorem esp_bus_off_spec :
    (∀ st evt, st.initialized = true →
      (esp_bus_off st evt none).1 = .ok ∧
      (esp_bus_off st evt none).2.1.routes =
        st.routes.filter (fun rt => !decide (rt.evt_pattern = evt)) ∧
      (esp_bus_off st evt none).2.2 =
        st.routes.filter (fun rt => decide (rt.evt_pattern = evt)) ∧
      (esp_bus_off st evt none).2.1.modules = st.modules ∧
      (esp_bus_off st evt none).2.1.subs = st.subs ∧
      (esp_bus_off st evt none).2.1.services = st.services) ∧
    (∀ st evt req, st.initialized = true →
      (esp_bus_off st evt (some req)).1 = .ok ∧
      (esp_bus_off st evt (some req)).2.1.routes =
        st.routes.filter
          (fun rt => !(decide (rt.evt_pattern = evt) && decide (rt.req_pattern = req))) ∧
      (esp_bus_off st evt (some req)).2.2 =
        st.routes.filter
          (fun rt => decide (rt.evt_pattern = evt) && decide (rt.req_pattern = req)) ∧
      (esp_bus_off st evt (some req)).2.1.modules = st.modules ∧
      (esp_bus_off st evt (some req)).2.1.subs = st.subs ∧
      (esp_bus_off st evt (some req)).2.1.services = st.services) := by
  constructor
  · intro st evt hinit
    rw [esp_bus_off, if_neg (by simp [hinit])]
    refine ⟨rfl, ?_, ?_, rfl, rfl, rfl⟩
    · simp
    · simp
  · intro st evt req hinit
    rw [esp_bus_off, if_neg (by simp [hinit])]
    refine ⟨rfl, ?_, ?_, rfl, rfl, rfl⟩
    · apply List.filter_congr
      intro rt _
      simp only [Option.isNone_some, Bool.false_or, Option.some.injEq]
      by_cases h1 : rt.evt_pattern = evt
      · by_cases h2 : rt.req_pattern = req
        · simp [h1, h2]
        · have h3 : ¬req = rt.req_pattern := fun hh => h2 hh.symm
          simp [h1, h2, h3]
      · simp [h1]
    · apply List.filter_congr
      intro rt _
      simp only [Option.isNone_some, Bool.false_or, Option.some.injEq]
      by_cases h1 : rt.evt_pattern = evt
      · by_cases h2 : rt.req_pattern = req
        · simp [h1, h2]
        · have h3 : ¬req = rt.req_pattern := fun hh => h2 hh.symm
          simp [h1, h2, h3]
      · simp [h1]

theorem esp_bus_off_spec_witness :
    (esp_bus_off ⟨true, false, [], [],
        [⟨"a:e".toList, "b.f".toList, none, 0, none, 0⟩], []⟩ "a:e".toList none).1 =
        .ok ∧
      (esp_bus_off ⟨true, false, [], [],
        [⟨"a:e".toList, "b.f".toList, none, 0, none, 0⟩], []⟩ "a:e".toList none).2.1.routes =
        ([⟨"a:e".toList, "b.f".toList, none, 0, none, 0⟩] : List RouteNode).filter
          (fun rt => !decide (rt.evt_pattern = "a:e".toList)) := by
  have h := esp_bus_off_spec.1
    ⟨true, false, [], [], [⟨"a:e".toList, "b.f".toList, none, 0, none, 0⟩], []⟩
    "a:e".toList rfl
  exact ⟨h.1, h.2.1⟩

theorem esp_bus_reg_duplicate_witness :
    esp_bus_reg ⟨true, false, [⟨"x".toList, none, none, 0⟩], [], [], []⟩ true
        ⟨"x".toList, none, none, 7⟩ =
      (.invalid_state, ⟨true, false, [⟨"x".toList, none, none, 0⟩], [], [], []⟩) :=
  esp_bus_reg_duplicate ⟨true, false, [⟨"x".toList, none, none, 0⟩], [], [], []⟩ true
    ⟨"x".toList, none, none, 7⟩ ⟨"x".toList, none, none, 0⟩ rfl
    (List.mem_cons_self _ _) rfl

theorem isSome_if_has_payload (req : Option Bytes) :
    (if msg_has_payload req then req else none).isSome = msg_has_payload req := by
  cases req with
  | none => simp [msg_has_payload]
  | some d =>
    by_cases h : 0 < d.length
    · simp [msg_has_payload, h]
    · simp [msg_has_payload, h]

/-- C3: from a non-worker context, a `timeout_ms == 0` call returns
success immediately after a successful enqueue without blocking and with
the caller's response buffer untouched (whatever the worker later does);
a failed enqueue or an expired blocking wait returns timeout; the copied
payload is freed by the caller on enqueue failure and by the worker when
the envelope is processed, and the handoff semaphore, when created, is
deleted on every path. -/
theorem esp_bus_req_spec :
    (∀ st allocOk waitOk wres pattern req res,
      st.initialized = true → (msg_has_payload req = true → allocOk = true) →
      (esp_bus_req st false allocOk true waitOk wres pattern req res 0).ret = .ok ∧
      (esp_bus_req st false allocOk true waitOk wres pattern req res 0).blocked = false ∧
      (esp_bus_req st false allocOk true waitOk wres pattern req res 0).resAfter = res ∧
      (esp_bus_req st false allocOk true waitOk wres pattern req res 0).semCreated = false ∧
      (esp_bus_req st false allocOk true waitOk wres pattern req res 0).enqueuedMsg.isSome
        = true) ∧
    (∀ st allocOk waitOk wres pattern req res timeout_ms,
      st.initialized = true → (msg_has_payload req = true → allocOk = true) →
      (esp_bus_req st false allocOk false waitOk wres pattern req res timeout_ms).ret
          = .timeout ∧
      (esp_bus_req st false allocOk false waitOk wres pattern req res
          timeout_ms).enqueuedMsg = none ∧
      (esp_bus_req st false allocOk false waitOk wres pattern req res
          timeout_ms).payloadFreedByCaller = msg_has_payload req ∧
      (esp_bus_req st false allocOk false waitOk wres pattern req res
          timeout_ms).semCreated = decide (0 < timeout_ms) ∧
      (esp_bus_req st false allocOk false waitOk wres pattern req res
          timeout_ms).semDeleted = decide (0 < timeout_ms)) ∧
    (∀ st allocOk wres pattern req res timeout_ms,
      st.initialized = true → (msg_has_payload req = true → allocOk = true) →
      0 < timeout_ms →
      (esp_bus_req st false allocOk true false wres pattern req res timeout_ms).ret
          = .timeout ∧
      (esp_bus_req st false allocOk true false wres pattern req res
          timeout_ms).semDeleted = true) ∧
    (∀ st allocOk wres pattern req res timeout_ms,
      st.initialized = true → (msg_has_payload req = true → allocOk = true) →
      0 < timeout_ms →
      (esp_bus_req st false allocOk true true wres pattern req res timeout_ms).ret
          = wres ∧
      (esp_bus_req st false allocOk true true wres pattern req res
          timeout_ms).semDeleted = true) ∧
    (∀ st st2 isWorker allocOk enqueueOk waitOk wres pattern req res timeout_ms msg,
      (esp_bus_req st isWorker allocOk enqueueOk waitOk wres pattern req res
          timeout_ms).enqueuedMsg = some msg →
      (process_message st2 msg).dataFreed = msg_has_payload req) := by
  refine ⟨?_, ?_, ?_, ?_, ?_⟩
  · intro st allocOk waitOk wres pattern req res hinit hp
    cases hmp : msg_has_payload req with
    | true =>
      have ha := hp hmp
      subst ha
      rw [esp_bus_req]
      simp [hinit, hmp]
    | false =>
      rw [esp_bus_req]
      simp [hinit, hmp]
  · intro st allocOk waitOk wres pattern req res timeout_ms hinit hp
    cases hmp : msg_has_payload req with
    | true =>
      have ha := hp hmp
      subst ha
      rw [esp_bus_req]
      simp [hinit, hmp]
    | false =>
      rw [esp_bus_req]
      simp [hinit, hmp]
  · intro st allocOk wres pattern req res timeout_ms hinit hp ht
    cases hmp : msg_has_payload req with
    | true =>
      have ha := hp hmp
      subst ha
      rw [esp_bus_req]
      simp [hinit, hmp, ht]
    | false =>
      rw [esp_bus_req]
      simp [hinit, hmp, ht]
  · intro st allocOk wres pattern req res timeout_ms hinit hp ht
    cases hmp : msg_has_payload req with
    | true =>
      have ha := hp hmp
      subst ha
      rw [esp_bus_req]
      simp [hinit, hmp, ht]
    | false =>
      rw [esp_bus_req]
      simp [hinit, hmp, ht]
  · intro st st2 isWorker allocOk enqueueOk waitOk wres pattern req res timeout_ms msg hmsg
    rw [esp_bus_req] at hmsg
    by_cases hinit : st.initialized = true
    · cases hw : isWorker with
      | true => simp [hinit, hw] at hmsg
      | false =>
        cases hmp : msg_has_payload req with
        | true =>
          cases ha : allocOk with
          | false => simp [hinit, hw, hmp, ha] at hmsg
          | true =>
            cases he : enqueueOk with
            | false => simp [hinit, hw, hmp, ha, he] at hmsg
            | true =>
              by_cases ht : 0 < timeout_ms
              · simp only [hinit, hw, hmp, ha, he, ht] at hmsg
                simp at hmsg
                cases req with
                | none => simp [msg_has_payload] at hmp
                | some d =>
                  rw [← hmsg, process_message]
                  simp [hmp]
              · simp only [hinit, hw, hmp, ha, he, ht] at hmsg
                simp [ht] at hmsg
                cases req with
                | none => simp [msg_has_payload] at hmp
                | some d =>
                  rw [← hmsg, process_message]
                  simp [hmp]
        | false =>
          cases he : enqueueOk with
          | false => simp [hinit, hw, hmp, he] at hmsg
          | true =>
            by_cases ht : 0 < timeout_ms
            · simp only [hinit, hw, hmp, he, ht] at hmsg
              simp at hmsg
              rw [← hmsg, process_message]
              simp [hmp]
            · simp only [hinit, hw, hmp, he, ht] at hmsg
              simp [ht] at hmsg
              rw [← hmsg, process_message]
              simp [hmp]
    · simp [hinit] at hmsg

theorem esp_bus_req_spec_witness :
    (esp_bus_req ⟨true, false, [], [], [], []⟩ false true true true .ok
        "m.a".toList none ⟨0, [], none⟩ 0).ret = .ok ∧
      (esp_bus_req ⟨true, false, [], [], [], []⟩ false true true true .ok
        "m.a".toList none ⟨0, [], none⟩ 0).blocked = false ∧
      (esp_bus_req ⟨true, false, [], [], [], []⟩ false true true true .ok
        "m.a".toList none ⟨0, [], none⟩ 0).resAfter = ⟨0, [], none⟩ ∧
      (esp_bus_req ⟨true, false, [], [], [], []⟩ false true true true .ok
        "m.a".toList none ⟨0, [], none⟩ 0).semCreated = false ∧
      (esp_bus_req ⟨true, false, [], [], [], []⟩ false true true true .ok
        "m.a".toList none ⟨0, [], none⟩ 0).enqueuedMsg.isSome = true :=
  esp_bus_req_spec.1 ⟨true, false, [], [], [], []⟩ true true .ok
    "m.a".toList none ⟨0, [], none⟩ rfl (fun _ => rfl)

/-- C6 counterexample: with the route-node `calloc` succeeding but the
payload `malloc` failing, `esp_bus_on` still returns `ESP_OK` and inserts
the route — with a `NULL` payload — instead of aborting the operation. -/
theorem esp_bus_on_payload_alloc_cex :
    (esp_bus_on ⟨true, false, [], [], [], []⟩ true false "e".toList "r".toList
        (some [1])).1 = .ok ∧
      (esp_bus_on ⟨true, false, [], [], [], []⟩ true false "e".toList "r".toList
        (some [1])).2.routes =
        [⟨"e".toList, "r".toList, none, 0, none, 0⟩] := by
  constructor
  · rfl
  · rfl

/-- C6 (amended): a payload-copy allocation failure in `esp_bus_req` and
`esp_bus_emit` aborts that single operation with a no-memory failure,
enqueuing nothing and leaving all state unchanged; in `esp_bus_on` only
the route-node allocation failure aborts with no-memory — a payload
allocation failure is silently ignored: the route is still inserted, with
an empty payload, and success is returned. -/
theorem payload_alloc_failure_spec :
    (∀ st enqueueOk waitOk wres pattern req res timeout_ms,
      st.initialized = true → msg_has_payload req = true →
      esp_bus_req st false false enqueueOk waitOk wres pattern req res timeout_ms =
        ⟨.no_mem, res, none, false, false, false, false, false⟩) ∧
    (∀ st enqueueOk src evt data,
      st.initialized = true → msg_has_payload data = true →
      esp_bus_emit st false enqueueOk src evt data = ⟨.no_mem, none, false, false⟩) ∧
    (∀ st payloadAllocOk e r d,
      st.initialized = true →
      esp_bus_on st false payloadAllocOk e r d = (.no_mem, st)) ∧
    (∀ st (e r : List Char) (d : Bytes),
      st.initialized = true → 0 < d.length →
      (esp_bus_on st true false e r (some d)).1 = .ok ∧
      (esp_bus_on st true false e r (some d)).2.routes =
        ⟨e.take (ESP_BUS_PATTERN_MAX - 1), r.take (ESP_BUS_PATTERN_MAX - 1),
          none, 0, none, 0⟩ :: st.routes) := by
  refine ⟨?_, ?_, ?_, ?_⟩
  · intro st enqueueOk waitOk wres pattern req res timeout_ms hinit hp
    rw [esp_bus_req]
    simp [hinit, hp]
  · intro st enqueueOk src evt data hinit hp
    rw [esp_bus_emit]
    simp [hinit, hp]
  · intro st payloadAllocOk e r d hinit
    rw [esp_bus_on]
    simp [hinit]
  · intro st e r d hinit hd
    rw [esp_bus_on]
    simp [hinit, hd]

theorem payload_alloc_failure_spec_witness :
    (esp_bus_on ⟨true, false, [], [], [], []⟩ false true "e".toList "r".toList none =
      (.no_mem, ⟨true, false, [], [], [], []⟩)) :=
  payload_alloc_failure_spec.2.2.1 ⟨true, false, [], [], [], []⟩ true
    "e".toList "r".toList none rfl

/-- C10: an event envelope whose stored pattern does not re-parse with
`':'` as separator — e.g. because the emitting source name contains a
`'.'`, which `esp_bus_parse_pattern` splits on first — is silently
dropped by the worker: the payload is freed, no dispatch happens, and no
result, semaphore signal or error report is produced. -/
theorem esp_bus_evt_dotted_source_dropped :
    ∀ st st2 src evt data,
      st.initialized = true → '.' ∈ src →
      src.length + 1 + evt.length ≤ ESP_BUS_PATTERN_MAX - 1 →
      (esp_bus_emit st true true src evt data).ret = .ok ∧
      ∃ msg, (esp_bus_emit st true true src evt data).enqueuedMsg = some msg ∧
        process_message st2 msg =
          ⟨none, false, msg_has_payload data, none, ⟨0, [], none⟩, []⟩ := by
  intro st st2 src evt data hinit hdot hlen
  have hpat : (src ++ ':' :: evt).take (ESP_BUS_PATTERN_MAX - 1) = src ++ ':' :: evt := by
    apply List.take_of_length_le
    simp only [List.length_append, List.length_cons]
    omega
  have hkey : ∀ d : Option Bytes,
      process_message st2 ⟨.evt, src ++ ':' :: evt, d, false, false, ⟨0, [], none⟩⟩ =
        ⟨none, false, d.isSome, none, ⟨0, [], none⟩, []⟩ := by
    intro d
    rw [process_message]
    have hdotmem : '.' ∈ src ++ ':' :: evt := List.mem_append_left _ hdot
    rw [esp_bus_parse_pattern, if_pos hdotmem]
    by_cases hidx : ESP_BUS_NAME_MAX ≤ (src ++ ':' :: evt).indexOf '.'
    · simp [hidx]
    · simp [hidx]
  constructor
  · rw [esp_bus_emit]
    simp [hinit]
  · have hmsg : (esp_bus_emit st true true src evt data).enqueuedMsg =
        some ⟨.evt, src ++ ':' :: evt,
          if msg_has_payload data = true then data else none,
          false, false, ⟨0, [], none⟩⟩ := by
      rw [esp_bus_emit]
      simp [hinit, hpat]
    refine ⟨_, hmsg, ?_⟩
    rw [hkey]
    rw [isSome_if_has_payload]

theorem esp_bus_evt_dotted_source_dropped_witness :
    (esp_bus_emit ⟨true, false, [], [], [], []⟩ true true "a.b".toList "e".toList
        none).ret = .ok ∧
      ∃ msg, (esp_bus_emit ⟨true, false, [], [], [], []⟩ true true "a.b".toList
          "e".toList none).enqueuedMsg = some msg ∧
        process_message ⟨true, false, [], [], [], []⟩ msg =
          ⟨none, false, msg_has_payload none, none, ⟨0, [], none⟩, []⟩ :=
  esp_bus_evt_dotted_source_dropped ⟨true, false, [], [], [], []⟩
    ⟨true, false, [], [], [], []⟩ "a.b".toList "e".toList none rfl
    (by decide) (by decide)

theorem next_wait_step_cases (now acc : Int) (s : SvcNode) :
    (¬0 < s.next_run_us ∧ next_wait_step now acc s = acc) ∨
      (0 < s.next_run_us ∧
        next_wait_step now acc s = min acc (max 1000 (s.next_run_us - now))) := by
  rw [next_wait_step]
  by_cases h : 0 < s.next_run_us
  · right
    refine ⟨h, ?_⟩
    rw [if_pos h]
    have hw2 : (if s.next_run_us - now < 1000 then 1000 else s.next_run_us - now) =
        max 1000 (s.next_run_us - now) := by
      rcases lt_or_le (s.next_run_us - now) 1000 with hh | hh
      · rw [if_pos hh, max_eq_left hh.le]
      · rw [if_neg (not_lt.mpr hh), max_eq_right hh]
    rw [hw2]
    rcases lt_or_le (max 1000 (s.next_run_us - now)) acc with hh | hh
    · rw [if_pos hh, min_eq_right hh.le]
    · rw [if_neg (not_lt.mpr hh), min_eq_left hh]
  · left
    exact ⟨h, by rw [if_neg h]⟩

theorem next_wait_fold (now : Int) :
    ∀ (l : List SvcNode) (acc : Int), 1000 ≤ acc →
      1000 ≤ l.foldl (next_wait_step now) acc ∧
      l.foldl (next_wait_step now) acc ≤ acc ∧
      (∀ s ∈ l, 0 < s.next_run_us →
        l.foldl (next_wait_step now) acc ≤ max 1000 (s.next_run_us - now)) ∧
      (l.foldl (next_wait_step now) acc = acc ∨
        ∃ s ∈ l, 0 < s.next_run_us ∧
          l.foldl (next_wait_step now) acc = max 1000 (s.next_run_us - now)) ∧
      ((∀ s ∈ l, ¬0 < s.next_run_us) → l.foldl (next_wait_step now) acc = acc) := by
  intro l
  induction l with
  | nil =>
    intro acc hacc
    simp [hacc]
  | cons s ls ih =>
    intro acc hacc
    rw [List.foldl_cons]
    have hmax : 1000 ≤ max 1000 (s.next_run_us - now) := le_max_left _ _
    rcases next_wait_step_cases now acc s with ⟨hno, hstep⟩ | ⟨hyes, hstep⟩
    · rw [hstep]
      obtain ⟨i1, i2, i3, i4, i5⟩ := ih acc hacc
      refine ⟨i1, i2, ?_, ?_, ?_⟩
      · intro s2 hs2 harm
        rcases List.mem_cons.mp hs2 with rfl | hm
        · exact absurd harm hno
        · exact i3 s2 hm harm
      · rcases i4 with h | ⟨s2, hm, harm, heq⟩
        · exact Or.inl h
        · exact Or.inr ⟨s2, List.mem_cons_of_mem _ hm, harm, heq⟩
      · intro hall
        exact i5 fun s2 hm => hall s2 (List.mem_cons_of_mem _ hm)
    · rw [hstep]
      have hacc' : 1000 ≤ min acc (max 1000 (s.next_run_us - now)) :=
        le_min hacc hmax
      obtain ⟨i1, i2, i3, i4, i5⟩ := ih _ hacc'
      refine ⟨i1, le_trans i2 (min_le_left _ _), ?_, ?_, ?_⟩
      · intro s2 hs2 harm
        rcases List.mem_cons.mp hs2 with rfl | hm
        · exact le_trans i2 (min_le_right _ _)
        · exact i3 s2 hm harm
      · rcases i4 with h | ⟨s2, hm, harm, heq⟩
        · rw [h]
          rcases le_total acc (max 1000 (s.next_run_us - now)) with hh | hh
          · exact Or.inl (min_eq_left hh)
          · exact Or.inr ⟨s, List.mem_cons_self _ _, hyes, min_eq_right hh⟩
        · exact Or.inr ⟨s2, List.mem_cons_of_mem _ hm, harm, heq⟩
      · intro hall
        exact absurd hyes (hall s (List.mem_cons_self _ _))

/-- C7: the computed wait is the minimum over all armed timers
(`next_run_us > 0`) of `(due - now)` floored to 1000 µs, capped by the
100000 µs idle maximum and reported in milliseconds, so it is at most
every armed timer's floored candidate, equals the cap when nothing is
armed, and is always in `[1, 100]` ms. -/
theorem esp_bus_calc_next_wait_spec :
    ∀ st now,
      1 ≤ esp_bus_calc_next_wait st now ∧
      esp_bus_calc_next_wait st now ≤ 100 ∧
      (∀ s ∈ st.services, 0 < s.next_run_us →
        esp_bus_calc_next_wait st now ≤ (max 1000 (s.next_run_us - now)).toNat / 1000) ∧
      ((∀ s ∈ st.services, ¬0 < s.next_run_us) → esp_bus_calc_next_wait st now = 100) ∧
      (esp_bus_calc_next_wait st now = 100 ∨
        ∃ s ∈ st.services, 0 < s.next_run_us ∧
          esp_bus_calc_next_wait st now =
            (max 1000 (s.next_run_us - now)).toNat / 1000) := by
  intro st now
  obtain ⟨f1, f2, f3, f4, f5⟩ :=
    next_wait_fold now st.services 100000 (by omega)
  have hlo : 1000 ≤ (st.services.foldl (next_wait_step now) 100000).toNat := by
    have := Int.toNat_le_toNat f1
    simpa using this
  have hhi : (st.services.foldl (next_wait_step now) 100000).toNat ≤ 100000 := by
    have := Int.toNat_le_toNat f2
    simpa using this
  have hms1 : 1 ≤ (st.services.foldl (next_wait_step now) 100000).toNat / 1000 :=
    Nat.le_div_iff_mul_le (by omega) |>.mpr (by omega)
  have hval : esp_bus_calc_next_wait st now =
      (st.services.foldl (next_wait_step now) 100000).toNat / 1000 := by
    rw [esp_bus_calc_next_wait, if_pos (by omega)]
  refine ⟨?_, ?_, ?_, ?_, ?_⟩
  · rw [hval]
    exact hms1
  · rw [hval]
    calc (st.services.foldl (next_wait_step now) 100000).toNat / 1000
        ≤ 100000 / 1000 := Nat.div_le_div_right hhi
      _ = 100 := by norm_num
  · intro s hs harm
    rw [hval]
    apply Nat.div_le_div_right
    exact Int.toNat_le_toNat (f3 s hs harm)
  · intro hall
    rw [hval, f5 hall]
    rfl
  · rcases f4 with h | ⟨s, hm, harm, heq⟩
    · left
      rw [hval, h]
      rfl
    · right
      exact ⟨s, hm, harm, by rw [hval, heq]⟩

theorem esp_bus_calc_next_wait_spec_witness :
    esp_bus_calc_next_wait ⟨true, false, [], [], [], [⟨1, 0, 0, 10, 60000, true⟩]⟩ 0 ≤
      (max 1000 ((60000 : Int) - 0)).toNat / 1000 :=
  (esp_bus_calc_next_wait_spec ⟨true, false, [], [], [], [⟨1, 0, 0, 10, 60000, true⟩]⟩
      0).2.2.1 ⟨1, 0, 0, 10, 60000, true⟩ (List.mem_cons_self _ _) (by decide)

theorem run_services_pass1_fired (now : Int) :
    ∀ l : List SvcNode,
      (run_services_pass1 now l).2 =
        (l.filter fun s =>
          decide (0 < s.next_run_us) && decide (s.next_run_us ≤ now)).map (·.id) := by
  intro l
  induction l with
  | nil => rfl
  | cons s ls ih =>
    rw [run_services_pass1]
    by_cases hdue : 0 < s.next_run_us ∧ s.next_run_us ≤ now
    · rw [if_pos hdue]
      simp [List.filter_cons, hdue.1, hdue.2, ih]
    · rw [if_neg hdue]
      have hb : (decide (0 < s.next_run_us) && decide (s.next_run_us ≤ now)) = false := by
        rcases not_and_or.mp hdue with h | h
        · simp [h]
        · simp [h]
      simp [List.filter_cons, hb, ih]

theorem run_services_pass1_mem_rearmed (now : Int) :
    ∀ (l : List SvcNode) (s : SvcNode), s ∈ l →
      0 < s.next_run_us → s.next_run_us ≤ now → s.rep = true →
      { s with next_run_us := now + (s.interval_ms : Int) * 1000 } ∈
        (run_services_pass1 now l).1 := by
  intro l
  induction l with
  | nil => intro s hs; simp at hs
  | cons hd ls ih =>
    intro s hs h1 h2 hrep
    rw [run_services_pass1]
    rcases List.mem_cons.mp hs with rfl | hm
    · rw [if_pos ⟨h1, h2⟩]
      rw [hrep]
      exact List.mem_cons_self _ _
    · by_cases hdue : 0 < hd.next_run_us ∧ hd.next_run_us ≤ now
      · rw [if_pos hdue]
        exact List.mem_cons_of_mem _ (ih s hm h1 h2 hrep)
      · rw [if_neg hdue]
        exact List.mem_cons_of_mem _ (ih s hm h1 h2 hrep)

theorem run_services_pass1_mem_unfired (now : Int) :
    ∀ (l : List SvcNode) (s : SvcNode), s ∈ l →
      ¬(0 < s.next_run_us ∧ s.next_run_us ≤ now) →
      s ∈ (run_services_pass1 now l).1 := by
  intro l
  induction l with
  | nil => intro s hs; simp at hs
  | cons hd ls ih =>
    intro s hs hnot
    rw [run_services_pass1]
    rcases List.mem_cons.mp hs with rfl | hm
    · rw [if_neg hnot]
      exact List.mem_cons_self _ _
    · by_cases hdue : 0 < hd.next_run_us ∧ hd.next_run_us ≤ now
      · rw [if_pos hdue]
        exact List.mem_cons_of_mem _ (ih s hm hnot)
      · rw [if_neg hdue]
        exact List.mem_cons_of_mem _ (ih s hm hnot)

/-- C8: one sweep of `esp_bus_run_services` fires exactly the armed
timers whose due time has passed, in registry order; each fired repeating
timer is rearmed to the sweep time plus its interval (skipping, never
bursting); each fired one-shot timer is retired (`next_run_us = 0`) and
removed by the second pass of the same sweep, so no retired one-shot
entry survives; timers that did not fire (and are not already-retired
one-shots) are kept unchanged. -/
theorem esp_bus_run_services_spec :
    ∀ st now,
      (esp_bus_run_services st now).2 =
        (st.services.filter fun s =>
          decide (0 < s.next_run_us) && decide (s.next_run_us ≤ now)).map (·.id) ∧
      (∀ s ∈ st.services, 0 < s.next_run_us → s.next_run_us ≤ now → s.rep = true →
        { s with next_run_us := now + (s.interval_ms : Int) * 1000 } ∈
          (esp_bus_run_services st now).1) ∧
      (∀ s2 ∈ (esp_bus_run_services st now).1, ¬(s2.rep = false ∧ s2.next_run_us = 0)) ∧
      (∀ s ∈ st.services, ¬(0 < s.next_run_us ∧ s.next_run_us ≤ now) →
        (s.rep = true ∨ s.next_run_us ≠ 0) → s ∈ (esp_bus_run_services st now).1) := by
  intro st now
  refine ⟨?_, ?_, ?_, ?_⟩
  · rw [esp_bus_run_services]
    exact run_services_pass1_fired now st.services
  · intro s hs h1 h2 hrep
    rw [esp_bus_run_services, run_services_pass2]
    rw [List.mem_filter]
    refine ⟨run_services_pass1_mem_rearmed now st.services s hs h1 h2 hrep, ?_⟩
    simp [hrep]
  · intro s2 hs2
    rw [esp_bus_run_services, run_services_pass2] at hs2
    have hp := (List.mem_filter.mp hs2).2
    intro ⟨hrep, hz⟩
    rw [hrep, hz] at hp
    simp at hp
  · intro s hs hnot hkeep
    rw [esp_bus_run_services, run_services_pass2]
    rw [List.mem_filter]
    refine ⟨run_services_pass1_mem_unfired now st.services s hs hnot, ?_⟩
    rcases hkeep with h | h
    · simp [h]
    · simp [h]

theorem esp_bus_run_services_spec_witness :
    ({ (⟨1, 0, 0, 10, 100, true⟩ : SvcNode) with
        next_run_us := (5000 : Int) + ((10 : Nat) : Int) * 1000 }) ∈
      (esp_bus_run_services ⟨true, false, [], [], [], [⟨1, 0, 0, 10, 100, true⟩]⟩
        5000).1 :=
  (esp_bus_run_services_spec ⟨true, false, [], [], [], [⟨1, 0, 0, 10, 100, true⟩]⟩
      5000).2.1 ⟨1, 0, 0, 10, 100, true⟩ (List.mem_cons_self _ _) (by decide)
    (by decide) rfl
